import Mathlib

/-!
Verification development for a small self-extending conversational agent
(`index.ts`).  The TypeScript source is shallowly embedded: pure string and
list manipulations become Lean functions; the two effectful capabilities the
program depends on (the completion provider and the JavaScript evaluation of a
tool implementation string) are passed in as explicit function parameters, so
every theorem quantifies over their behavior.  File and process effects are
modelled by explicit state passing (`AgentState`) and a terminating outcome
type (`ProcessOutcome`).
-/

/-- Message role, from the `Message` interface (`role: 'system' | 'user' | 'assistant'`). -/
inductive Role where
  | system
  | user
  | assistant
deriving DecidableEq, Repr

/-- One conversation turn, from the `Message` interface. -/
structure Message where
  role : Role
  content : String
deriving DecidableEq, Repr

/-- A registered tool, from the `Tool` interface. -/
structure Tool where
  name : String
  description : String
  implementation : String
deriving DecidableEq, Repr

/-- JavaScript values as far as this program observes them: the JSON fragment.
`num` stores the numeric lexeme; no claim depends on the floating-point value
it denotes.  Tool results and decision objects are values of this type. -/
inductive Json where
  | null
  | bool (b : Bool)
  | num (lexeme : String)
  | str (s : String)
  | arr (elems : List Json)
  | obj (members : List (String × Json))

/-- Result of one tool invocation, from the `ToolResult` interface.  In the
source `result: any` is a required field (explicitly `null` on every failure
path) while `error?: string` is optional; hence `result : Json` and
`error : Option String`. -/
structure ToolResult where
  success : Bool
  result : Json
  error : Option String

/-- Outcome of evaluating a tool implementation string, i.e. of
`new Function(arg0.., wrapper)` followed by `await fn(...args)` in
`executeTool`.  The wrapper is
`try { <implementation> } catch (error) { throw new Error(...) }`, so the
four observable cases are:
* `ok v` — the call returned (or resolved to) `v`;
* `compileError m` — `new Function` itself threw (malformed source); `m` is
  the engine message reaching the outer `catch` via `error.message`;
* `syncThrow m` — the implementation threw synchronously, so the inner
  `catch` rethrew; `m` is the interpolated `error.message` of the original
  exception (the string `undefined` when a non-Error was thrown);
* `asyncReject m` — the implementation returned a promise that rejected;
  this bypasses the inner wrapper (the `try` block already returned), and
  `m` is what the outer catch computes: `error.message` for an `Error`,
  `String(error)` otherwise.  `m` may be empty, e.g. for
  `Promise.reject(new Error())`. -/
inductive ExecOutcome where
  | ok (v : Json)
  | compileError (msg : String)
  | syncThrow (msg : String)
  | asyncReject (msg : String)

/-- A single-quote character, kept out of string literals. -/
def squote : String := String.mk [Char.ofNat 39]

/-- The not-found message `Tool '<name>' not found` from `executeTool`. -/
def toolNotFoundMsg (name : String) : String :=
  "Tool " ++ squote ++ name ++ squote ++ " not found"

/-- The prefix the generated wrapper adds to a synchronously thrown error. -/
def execFailedMsgStart : String := "Tool execution failed: "

/-- `executeTool(name, args)` (src/index.ts lines 126-162).  `evalImpl` is the
JavaScript engine: it evaluates a tool implementation string on an argument
list.  The registry lookup is `this.tools.find(t => t.name === name)`. -/
def executeTool (tools : List Tool) (evalImpl : String → List Json → ExecOutcome)
    (name : String) (args : List Json) : ToolResult :=
  match tools.find? (fun t => t.name == name) with
  | none =>
    { success := false, result := Json.null, error := some (toolNotFoundMsg name) }
  | some tool =>
    match evalImpl tool.implementation args with
    | ExecOutcome.ok v => { success := true, result := v, error := none }
    | ExecOutcome.compileError m =>
      { success := false, result := Json.null, error := some m }
    | ExecOutcome.syncThrow m =>
      { success := false, result := Json.null, error := some (execFailedMsgStart ++ m) }
    | ExecOutcome.asyncReject m =>
      { success := false, result := Json.null, error := some m }

/-- JSON whitespace characters (the four accepted by `JSON.parse`). -/
def isJsWs (c : Char) : Bool :=
  c == ' ' || c == '\t' || c == '\n' || c == '\r'

/-- Drop leading JSON whitespace. -/
def skipWs : List Char → List Char
  | [] => []
  | c :: rest => if isJsWs c then skipWs rest else c :: rest

/-- Value of one hexadecimal digit. -/
def hexVal (c : Char) : Option Nat :=
  if 48 ≤ c.toNat ∧ c.toNat ≤ 57 then some (c.toNat - 48)
  else if 97 ≤ c.toNat ∧ c.toNat ≤ 102 then some (c.toNat - 87)
  else if 65 ≤ c.toNat ∧ c.toNat ≤ 70 then some (c.toNat - 55)
  else none

/-- Parse the body of a JSON string literal (after the opening quote), up to
and including the closing quote.  Returns the decoded characters and the
remaining input.  Raw control characters are rejected, as in `JSON.parse`.
(A `\uXXXX` escape is decoded as a scalar value; surrogate halves, which the
serializer in this program never emits, are not modelled.) -/
def parseStrBody : List Char → Option (List Char × List Char)
  | [] => none
  | '"' :: rest => some ([], rest)
  | '\\' :: rest =>
    match rest with
    | '"' :: r => (parseStrBody r).map (fun p => ('"' :: p.1, p.2))
    | '\\' :: r => (parseStrBody r).map (fun p => ('\\' :: p.1, p.2))
    | '/' :: r => (parseStrBody r).map (fun p => ('/' :: p.1, p.2))
    | 'b' :: r => (parseStrBody r).map (fun p => (Char.ofNat 8 :: p.1, p.2))
    | 'f' :: r => (parseStrBody r).map (fun p => (Char.ofNat 12 :: p.1, p.2))
    | 'n' :: r => (parseStrBody r).map (fun p => ('\n' :: p.1, p.2))
    | 'r' :: r => (parseStrBody r).map (fun p => ('\r' :: p.1, p.2))
    | 't' :: r => (parseStrBody r).map (fun p => ('\t' :: p.1, p.2))
    | 'u' :: h1 :: h2 :: h3 :: h4 :: r =>
      match hexVal h1, hexVal h2, hexVal h3, hexVal h4 with
      | some a, some b, some c, some d =>
        (parseStrBody r).map (fun p => (Char.ofNat (((a * 16 + b) * 16 + c) * 16 + d) :: p.1, p.2))
      | _, _, _, _ => none
    | _ => none
  | c :: rest =>
    if c.toNat < 32 then none
    else (parseStrBody rest).map (fun p => (c :: p.1, p.2))

/-- One or more decimal digits, returned as characters. -/
def takeDigits : List Char → (List Char × List Char)
  | [] => ([], [])
  | c :: rest =>
    if c.isDigit then
      let p := takeDigits rest
      (c :: p.1, p.2)
    else ([], c :: rest)

/-- Parse the integer part of a JSON number after an optional sign:
`0` alone or a nonzero digit followed by digits (`JSON.parse` rejects
leading zeros). -/
def parseIntPart : List Char → Option (List Char × List Char)
  | [] => none
  | c :: rest =>
    if c == '0' then some (['0'], rest)
    else if c.isDigit then
      let p := takeDigits rest
      some (c :: p.1, p.2)
    else none

/-- Parse the optional fraction part `.digits`. -/
def parseFracPart (s : List Char) : Option (List Char × List Char) :=
  match s with
  | '.' :: rest =>
    match rest with
    | c :: r =>
      if c.isDigit then
        let p := takeDigits r
        some ('.' :: c :: p.1, p.2)
      else none
    | [] => none
  | _ => some ([], s)

/-- Parse the optional exponent part `eE[+-]digits`. -/
def parseExpPart (s : List Char) : Option (List Char × List Char) :=
  match s with
  | c :: rest =>
    if c == 'e' || c == 'E' then
      match rest with
      | d :: r =>
        if d == '+' || d == '-' then
          match r with
          | e :: r2 =>
            if e.isDigit then
              let p := takeDigits r2
              some (c :: d :: e :: p.1, p.2)
            else none
          | [] => none
        else if d.isDigit then
          let p := takeDigits r
          some (c :: d :: p.1, p.2)
        else none
      | [] => none
    else some ([], s)
  | [] => some ([], s)

/-- Parse a JSON number token, producing its lexeme. -/
def parseNum (s : List Char) : Option (Json × List Char) :=
  let core : List Char → Option (List Char × List Char) := fun t =>
    match parseIntPart t with
    | none => none
    | some (ip, r1) =>
      match parseFracPart r1 with
      | none => none
      | some (fp, r2) =>
        match parseExpPart r2 with
        | none => none
        | some (ep, r3) => some (ip ++ fp ++ ep, r3)
  match s with
  | '-' :: rest =>
    match core rest with
    | some (lx, r) => some (Json.num (String.mk ('-' :: lx)), r)
    | none => none
  | _ =>
    match core s with
    | some (lx, r) => some (Json.num (String.mk lx), r)
    | none => none

mutual

/-- Recursive-descent JSON value parser, the model of `JSON.parse`.  `fuel`
bounds the recursion; `parseJsonChars` below supplies more than enough for
any input, so the fuel is an embedding artifact only.  Duplicate object keys
(where `JSON.parse` keeps the last value) are kept as repeated members; no
claim exercises them. -/
def parseValue : Nat → List Char → Option (Json × List Char)
  | 0, _ => none
  | f + 1, s =>
    match skipWs s with
    | '{' :: rest =>
      match skipWs rest with
      | '}' :: rest2 => some (Json.obj [], rest2)
      | rest2 => parseMembers f rest2
    | '[' :: rest =>
      match skipWs rest with
      | ']' :: rest2 => some (Json.arr [], rest2)
      | rest2 => parseElems f rest2
    | '"' :: rest => (parseStrBody rest).map (fun p => (Json.str (String.mk p.1), p.2))
    | 't' :: 'r' :: 'u' :: 'e' :: rest => some (Json.bool true, rest)
    | 'f' :: 'a' :: 'l' :: 's' :: 'e' :: rest => some (Json.bool false, rest)
    | 'n' :: 'u' :: 'l' :: 'l' :: rest => some (Json.null, rest)
    | rest => parseNum rest

/-- Parse the members of a nonempty JSON object, up to and including the
closing brace. -/
def parseMembers : Nat → List Char → Option (Json × List Char)
  | 0, _ => none
  | f + 1, s =>
    match skipWs s with
    | '"' :: rest =>
      match parseStrBody rest with
      | none => none
      | some (key, r2) =>
        match skipWs r2 with
        | ':' :: r3 =>
          match parseValue f r3 with
          | none => none
          | some (v, r4) =>
            match skipWs r4 with
            | ',' :: r5 =>
              match parseMembers f r5 with
              | some (Json.obj l, r6) => some (Json.obj ((String.mk key, v) :: l), r6)
              | _ => none
            | '}' :: r5 => some (Json.obj [(String.mk key, v)], r5)
            | _ => none
        | _ => none
    | _ => none

/-- Parse the elements of a nonempty JSON array, up to and including the
closing bracket. -/
def parseElems : Nat → List Char → Option (Json × List Char)
  | 0, _ => none
  | f + 1, s =>
    match parseValue f s with
    | none => none
    | some (v, r) =>
      match skipWs r with
      | ',' :: r2 =>
        match parseElems f r2 with
        | some (Json.arr l, r3) => some (Json.arr (v :: l), r3)
        | _ => none
      | ']' :: r2 => some (Json.arr [v], r2)
      | _ => none

end

/-- `JSON.parse` on a character list: one JSON value, with nothing but
whitespace allowed after it; `none` models a thrown `SyntaxError`.  Every
grammar production consumes at least one character, so `length + 3` fuel is
always sufficient. -/
def parseJsonChars (s : List Char) : Option Json :=
  match parseValue (s.length + 3) s with
  | some (v, rest) => if skipWs rest == [] then some v else none
  | none => none

/-- Global replacement of the regular expression ```` /```json\n?|\n?```/ ````
with the empty string (src/index.ts line 198).  The scan tries the first
alternative, then the second, at each position, and resumes after a match,
exactly as `String.prototype.replace` with a global regex does. -/
def stripFences : List Char → List Char
  | '`' :: '`' :: '`' :: 'j' :: 's' :: 'o' :: 'n' :: '\n' :: rest => stripFences rest
  | '`' :: '`' :: '`' :: 'j' :: 's' :: 'o' :: 'n' :: rest => stripFences rest
  | '\n' :: '`' :: '`' :: '`' :: rest => stripFences rest
  | '`' :: '`' :: '`' :: rest => stripFences rest
  | c :: rest => c :: stripFences rest
  | [] => []

/-- `String.prototype.trim` over the ASCII whitespace this program can meet
(the exotic Unicode space classes JavaScript also trims are unexercised). -/
def jsTrim (l : List Char) : List Char :=
  ((l.dropWhile (fun c => isJsWs c)).reverse.dropWhile (fun c => isJsWs c)).reverse

/-- Output of one completion-provider call as `generateResponse` observes it:
either the request (or anything else in the `try` block before parsing) threw,
or it produced a message whose `content` is a string or `null`. -/
inductive ProviderOut where
  | failure
  | content (c : Option String)

/-- `completion.choices[0].message.content || '{}'` — `null` and the empty
string are falsy, so both default to the two-character object literal. -/
def contentOrDefault : Option String → String
  | none => "\x7b\x7d"
  | some s => if s == "" then "\x7b\x7d" else s

/-- The stripped and trimmed text handed to `JSON.parse` (line 198). -/
def strippedJsonStr (c : Option String) : List Char :=
  jsTrim (stripFences (contentOrDefault c).data)

/-- The fixed fallback decision object returned from the `catch` block of
`generateResponse` (lines 206-211). -/
def fallbackDecision : Json :=
  Json.obj
    [ ("reasoning", Json.str "Failed to generate proper response"),
      ("actions", Json.arr []),
      ("newTools", Json.arr []),
      ("response", Json.str "Error: Failed to process the request. Please try again.") ]

/-- The parse half of `generateResponse` (lines 188-212): given what the
provider call produced, strip code fences, trim, `JSON.parse`; any failure
(of the call itself or of parsing) yields `fallbackDecision`.  The provider
is invoked exactly once per call — there is no retry. -/
def generateFromProvider (p : ProviderOut) : Json :=
  match p with
  | ProviderOut.failure => fallbackDecision
  | ProviderOut.content c =>
    match parseJsonChars (strippedJsonStr c) with
    | some j => j
    | none => fallbackDecision

/-- Static text of the system prompt before the tool catalog. -/
def sysPromptIntro : String :=
  "You are an AI agent capable of using and generating tools/functions.\n\nAvailable tools:\n"

/-- Static text of the system prompt after the tool catalog: the JSON output
contract and the tool-generation rules (src/index.ts lines 55-89). -/
def sysPromptRules : String :=
  "\n\nIMPORTANT: You must ALWAYS respond with a valid JSON object in the following format:\n\x7b\n  \"reasoning\": \"string explaining your thought process\",\n  \"actions\": [\n    \x7b\n      \"tool\": \"string (name of the tool to use)\",\n      \"args\": [\"arg1\", \"arg2\"]\n    \x7d\n  ],\n  \"newTools\": [\n    \x7b\n      \"name\": \"string\",\n      \"description\": \"string\",\n      \"implementation\": \"function foo() \x7b return \x27bar\x27; \x7d\n return foo();\"\n    \x7d\n  ],\n  \"response\": \"string (your response to the user)\"\n\x7d\n\nRules:\n1. Your response MUST be a valid JSON object\n2. All property names must be in quotes\n3. All string values must be in quotes\n4. Arrays can be empty but must be present\n5. Do not include any text before or after the JSON object\n\nWhen generating new tools:\n1. Each tool should be focused and do one thing well\n2. Include proper error handling\n3. Tool implementations should be valid JavaScript code and must return a value (not just a function call)\n4. Tool implementations MUST ALWAYS end in a return statement\n5. No, really, make sure you always return a value - the last line of MUST always be a return statement\n6. Always use modern ESNext syntax\n7. Never use imports or external libraries\n8. When using a free API, always actually use the API - don\x27t simulate one"

/-- `getSystemPrompt()` (lines 45-90): the static instructions around the
tool catalog, which lists `name: description` per tool, newline separated —
implementation text never appears. -/
def getSystemPrompt (tools : List Tool) : String :=
  let toolDescriptions :=
    String.intercalate "\n" (tools.map (fun tool => tool.name ++ ": " ++ tool.description))
  sysPromptIntro ++ toolDescriptions ++ sysPromptRules

/-- Content of the extra system turn carrying serialized tool results
(lines 182-185); `ser` is the `JSON.stringify(toolResults, null, 2)` text. -/
def toolResultsContent (ser : String) : String :=
  "Tool execution results:\n" ++ ser ++
    "\n\nRemember to respond with a valid JSON object as specified in the format above."

/-- Prompt construction of `generateResponse` (lines 175-186): one system
turn, the agent history as it stands at call time, the input as a user turn,
and — when tool results are passed — one trailing system turn. -/
def buildMessages (tools : List Tool) (history : List Message) (input : String)
    (toolResultsSer : Option String) : List Message :=
  let messages := Message.mk Role.system (getSystemPrompt tools) ::
    (history ++ [Message.mk Role.user input])
  match toolResultsSer with
  | some ser => messages ++ [Message.mk Role.system (toolResultsContent ser)]
  | none => messages

/-- JavaScript property access `j.k` on a parsed value: `none` models
`undefined` (absent key or non-object receiver). -/
def jsGet (j : Json) (k : String) : Option Json :=
  match j with
  | Json.obj l => (l.find? (fun p => p.1 == k)).map (fun p => p.2)
  | _ => none

/-- The guard `x && x.length > 0` used on `aiResponse.actions` and
`aiResponse.newTools`: arrays are always truthy and have their list length;
strings are truthy when nonempty; every other value is either falsy or has
no `length`, so the conjunction is `false`. -/
def jsLenPos : Option Json → Bool
  | some (Json.arr l) => !l.isEmpty
  | some (Json.str s) => !(s == "")
  | _ => false

/-- String field access defaulting to the empty string.  In the untyped
source a missing field would propagate `undefined`; every claim that touches
these accessors does so under decision-shaped values where the field is a
present string, so the default is never observable there. -/
def strField (j : Json) (k : String) : String :=
  match jsGet j k with
  | some (Json.str s) => s
  | _ => ""

/-- A proposed tool record as `updateTools` consumes it: the parsed object's
`name`, `description` and `implementation` fields. -/
def toolOfJson (j : Json) : Tool :=
  { name := strField j "name", description := strField j "description",
    implementation := strField j "implementation" }

/-- `aiResponse.actions` as the `for` loop iterates it.  A truthy non-array
value (where JavaScript would iterate characters or throw) is unexercised by
every claim and modelled as the empty iteration. -/
def actionsOf (d : Json) : List Json :=
  match jsGet d "actions" with
  | some (Json.arr l) => l
  | _ => []

/-- `aiResponse.newTools` as `updateTools` receives it (same caveat as
`actionsOf`). -/
def newToolsOf (d : Json) : List Tool :=
  match jsGet d "newTools" with
  | some (Json.arr l) => l.map toolOfJson
  | _ => []

/-- `aiResponse.response` pushed as the assistant turn.  (For a provider
output without a string `response`, JavaScript would store the raw value in
the turn; the claims only quantify over decision-shaped outputs, where this
is exact.) -/
def responseOf (d : Json) : String := strField d "response"

/-- The action loop of `processUserInput` (lines 238-242): each action's
tool name is looked up and executed, building the `toolResults` record in
iteration order.  `action.args || []` takes the array when present and the
empty list when falsy; a truthy non-array (spread or TypeError in JS) is
unexercised. -/
def runActions (tools : List Tool) (evalImpl : String → List Json → ExecOutcome) :
    List Json → List (String × ToolResult)
  | [] => []
  | a :: rest =>
    let nm := strField a "tool"
    let args := match jsGet a "args" with
      | some (Json.arr l) => l
      | _ => []
    (nm, executeTool tools evalImpl nm args) :: runActions tools evalImpl rest

/-- Lowercase hexadecimal digit character for `n < 16`. -/
def hexDigitChar (n : Nat) : Char :=
  if n < 10 then Char.ofNat (48 + n) else Char.ofNat (87 + n)

/-- How `JSON.stringify` escapes one character inside a string literal:
the two-character escapes for quote, backslash and the named control
characters, `\u00xx` for the remaining control characters, and the character
itself otherwise. -/
def escapeChar (c : Char) : List Char :=
  if c = '"' then ['\\', '"']
  else if c = '\\' then ['\\', '\\']
  else if c = Char.ofNat 8 then ['\\', 'b']
  else if c = '\t' then ['\\', 't']
  else if c = '\n' then ['\\', 'n']
  else if c = Char.ofNat 12 then ['\\', 'f']
  else if c = '\r' then ['\\', 'r']
  else if c.toNat < 32 then
    ['\\', 'u', '0', '0', hexDigitChar (c.toNat / 16), hexDigitChar (c.toNat % 16)]
  else [c]

/-- Escape every character of a string body. -/
def escapeChars : List Char → List Char
  | [] => []
  | c :: cs => escapeChar c ++ escapeChars cs

/-- A `JSON.stringify` string literal: quote, escaped body, quote. -/
def quoteStr (s : String) : List Char :=
  '"' :: (escapeChars s.data ++ ['"'])

/-- The serialized role names. -/
def roleString : Role → String
  | Role.system => "system"
  | Role.user => "user"
  | Role.assistant => "assistant"

/-- The JSON value a `Message` serializes to: `role` first, then `content`,
matching the property order of the object literals the source pushes. -/
def msgJson (m : Message) : Json :=
  Json.obj [("role", Json.str (roleString m.role)), ("content", Json.str m.content)]

/-- One history entry as `JSON.stringify(history, null, 2)` prints it at
array depth: keys indented four spaces, closing brace two. -/
def stringifyMsgChars (m : Message) : List Char :=
  "\x7b\n    \"role\": ".data ++ quoteStr (roleString m.role) ++
    ",\n    \"content\": ".data ++ quoteStr m.content ++ "\n  \x7d".data

/-- The comma-joined element block of the serialized history array. -/
def elemsChars : List Message → List Char
  | [] => []
  | [m] => stringifyMsgChars m
  | m :: m2 :: rest => stringifyMsgChars m ++ ",\n  ".data ++ elemsChars (m2 :: rest)

/-- `JSON.stringify(this.history, null, 2)` — the exact text `saveHistory`
writes to `history.json` (line 103). -/
def stringifyMessages (h : List Message) : String :=
  match h with
  | [] => "[]"
  | m :: rest => String.mk ("[\n  ".data ++ elemsChars (m :: rest) ++ "\n]".data)

/-- Read a role back from its serialized name. -/
def roleOfString (s : String) : Option Role :=
  if s == "system" then some Role.system
  else if s == "user" then some Role.user
  else if s == "assistant" then some Role.assistant
  else none

/-- Read one turn back from its parsed JSON object. -/
def msgOfJson : Json → Option Message
  | Json.obj [("role", Json.str r), ("content", Json.str c)] =>
    match roleOfString r with
    | some role => some (Message.mk role c)
    | none => none
  | _ => none

/-- Read a sequence of turns back from parsed JSON objects. -/
def decodeMsgList : List Json → Option (List Message)
  | [] => some []
  | j :: rest =>
    match msgOfJson j with
    | some m => (decodeMsgList rest).map (fun l => m :: l)
    | none => none

/-- Read a turn sequence back from a parsed history array. -/
def decodeMessages : Json → Option (List Message)
  | Json.arr l => decodeMsgList l
  | _ => none

/-- `loadHistory()` (lines 92-100): parse the history file in full; a missing
file or a parse failure is recovered as the empty history.  The parsed value
is assigned to `this.history` without further validation. -/
def loadHistory (fileData : Option String) : Json :=
  match fileData with
  | none => Json.arr []
  | some d =>
    match parseJsonChars d.data with
    | some j => j
    | none => Json.arr []

/-- `JSON.stringify(tool, null, 2)` for one tool record (line 220): a
top-level object, keys indented two spaces, in declared field order. -/
def stringifyTool (t : Tool) : List Char :=
  "\x7b\n  \"name\": ".data ++ quoteStr t.name ++
    ",\n  \"description\": ".data ++ quoteStr t.description ++
    ",\n  \"implementation\": ".data ++ quoteStr t.implementation ++ "\n\x7d".data

/-- `this.tools.map(tool => JSON.stringify(tool, null, 2)).join(',\n')`. -/
def toolsSection : List Tool → List Char
  | [] => []
  | [t] => stringifyTool t
  | t :: t2 :: rest => stringifyTool t ++ ",\n".data ++ toolsSection (t2 :: rest)

/-- The replacement text `this.tools = [\n<section>\n];` (line 223). -/
def seedReplacement (tools : List Tool) : List Char :=
  "this.tools = [\n".data ++ toolsSection tools ++ "\n];".data

/-- Consume an expected literal prefix, character by character. -/
def expectLit : List Char → List Char → Option (List Char)
  | [], s => some s
  | _ :: _, [] => none
  | p :: ps, c :: cs => if c = p then expectLit ps cs else none

/-- Match the literal opening `this.tools = [` of the seed-block pattern
`/this\.tools = \[([\s\S]*?)\];/` at the current position. -/
def matchOpen (s : List Char) : Option (List Char) :=
  expectLit "this.tools = [".data s

/-- The lazy `([\s\S]*?)\];` tail of the pattern: scan to the earliest `];`,
returning the consumed text (terminator included) and the rest. -/
def lazyClose : List Char → Option (List Char × List Char)
  | ']' :: ';' :: rest => some ([']', ';'], rest)
  | c :: rest => (lazyClose rest).map (fun p => (c :: p.1, p.2))
  | [] => none

/-- Try the whole seed pattern at the current position, returning the matched
text and the rest of the input. -/
def seedAt (s : List Char) : Option (List Char × List Char) :=
  (matchOpen s).bind (fun r => (lazyClose r).map (fun p => ("this.tools = [".data ++ p.1, p.2)))

/-- Leftmost match of the seed pattern: the decomposition
`prefix, match, suffix` that a non-global `String.prototype.replace` uses. -/
def splitSeed : List Char → Option (List Char × List Char × List Char)
  | [] => none
  | c :: rest =>
    match seedAt (c :: rest) with
    | some (m, post) => some ([], m, post)
    | none => (splitSeed rest).map (fun t => (c :: t.1, t.2.1, t.2.2))

/-- `currentFile.replace(/this\.tools = \[([\s\S]*?)\];/, repl)`: replace the
first match, or return the file unchanged when there is none. -/
def replaceSeed (file repl : List Char) : List Char :=
  match splitSeed file with
  | some (pre, _, post) => pre ++ repl ++ post
  | none => file

/-- `updateTools(newTools)` (lines 215-227): append in memory, then rewrite
the seed block of the persisted source with the serialization of the full
accumulated list.  Returns the new in-memory list and the new file text. -/
def updateTools (tools newTools : List Tool) (file : List Char) : List Tool × List Char :=
  let tools2 := tools ++ newTools
  (tools2, replaceSeed file (seedReplacement tools2))

/-- The observable state of one agent process: the in-memory history and tool
registry, the text of the agent source on disk, and the text of the history
file.  (`debug` only gates logging and carries no behavior.) -/
structure AgentState where
  history : List Message
  tools : List Tool
  sourceFile : List Char
  histFile : String

/-- The environment a run is parameterized by: the completion provider as a
function of the outgoing prompt, the JavaScript evaluator for tool
implementations, and `JSON.stringify` on the tool-result record (passed
opaque because no claim depends on its text). -/
structure Oracles where
  provider : List Message → ProviderOut
  evalImpl : String → List Json → ExecOutcome
  stringifyResults : List (String × ToolResult) → String

/-- `generateResponse` end to end: build the prompt from the current state,
invoke the provider once, parse with fallback. -/
def generateResponseJson (o : Oracles) (msgs : List Message) : Json :=
  generateFromProvider (o.provider msgs)

/-- How one call to `processUserInput` ends: with a reply returned to the
caller (line 259), or with `restart()` terminating the process after saving
history (lines 262-265).  Either way the carried state records what was in
memory and on disk at that point; in both cases `histFile` has just been
written by `saveHistory`. -/
inductive ProcessOutcome where
  | replied (response : String) (st : AgentState)
  | exited (st : AgentState)

/-- The first `generateResponse(input)` of a turn (line 233).  Note the user
turn has already been pushed (line 231), so the history embedded in the
prompt already ends with the current input. -/
def firstDecision (o : Oracles) (st : AgentState) (input : String) : Json :=
  generateResponseJson o
    (buildMessages st.tools (st.history ++ [Message.mk Role.user input]) input none)

/-- The decision the rest of the turn runs on: the first one, refreshed by a
second provider call with serialized tool results when the first requested
actions (lines 236-247). -/
def finalDecision (o : Oracles) (st : AgentState) (input : String) : Json :=
  let d1 := firstDecision o st input
  if jsLenPos (jsGet d1 "actions") then
    let trs := runActions st.tools o.evalImpl (actionsOf d1)
    generateResponseJson o
      (buildMessages st.tools (st.history ++ [Message.mk Role.user input]) input
        (some (o.stringifyResults trs)))
  else d1

/-- `processUserInput(input)` (lines 229-260): push the user turn, decide
(running requested actions and refreshing once), then either commit new
tools and restart — never reaching the assistant push or the return — or
push the assistant turn, save, and return the response. -/
def processUserInput (o : Oracles) (st : AgentState) (input : String) : ProcessOutcome :=
  let hist1 := st.history ++ [Message.mk Role.user input]
  let d := finalDecision o st input
  if jsLenPos (jsGet d "newTools") then
    let upd := updateTools st.tools (newToolsOf d) st.sourceFile
    ProcessOutcome.exited
      { history := hist1, tools := upd.1, sourceFile := upd.2,
        histFile := stringifyMessages hist1 }
  else
    let resp := responseOf d
    let hist2 := hist1 ++ [Message.mk Role.assistant resp]
    ProcessOutcome.replied resp
      { history := hist2, tools := st.tools, sourceFile := st.sourceFile,
        histFile := stringifyMessages hist2 }

/-- Result of feeding a sequence of inputs to the interactive loop: the state
after all replies, or the state at the first restart-triggered exit. -/
inductive RunResult where
  | ok (st : AgentState)
  | exited (st : AgentState)

/-- The interactive loop (lines 290-293) over a finite input sequence. -/
def runInputs (o : Oracles) (st : AgentState) : List String → RunResult
  | [] => RunResult.ok st
  | i :: rest =>
    match processUserInput o st i with
    | ProcessOutcome.replied _ st2 => runInputs o st2 rest
    | ProcessOutcome.exited st2 => RunResult.exited st2

/-- The startup replay block (lines 275-283): when the last loaded turn is a
user turn, its content is passed back through `processUserInput` before new
input is accepted. -/
def startupStep (o : Oracles) (st : AgentState) : Option ProcessOutcome :=
  match st.history.getLast? with
  | some m => if m.role = Role.user then some (processUserInput o st m.content) else none
  | none => none

/-- The three built-in tools seeded by `initializeBasicTools` (lines 106-124). -/
def builtinTools : List Tool :=
  [ { name := "readMainFile",
      description := "Reads the contents of the main index.ts file",
      implementation := "\n          const content = readFileSync(\x27index.ts\x27, \x27utf-8\x27);\n          return content;\n        " },
    { name := "writeMainFile",
      description := "Writes content to the main index.ts file",
      implementation := "\n          writeFileSync(\x27index.ts\x27, arg0);\n          return \x27File written successfully\x27;\n        " },
    { name := "listFiles",
      description := "Lists all files in the current working directory",
      implementation := "\n          const files = readdirSync(\x27.\x27);\n          return files;\n        " } ]

/-- The expected turn shape: user and assistant turns strictly alternating,
pairing each input with its reply. -/
def interleaveTurns : List (String × String) → List Message
  | [] => []
  | (i, r) :: rest =>
    Message.mk Role.user i :: Message.mk Role.assistant r :: interleaveTurns rest

/-- The state carried by either outcome of a turn. -/
def outcomeState : ProcessOutcome → AgentState
  | ProcessOutcome.replied _ st => st
  | ProcessOutcome.exited st => st

/-- The Decision shape required by the specification (section 3): `response`
present as text, `actions` and `newTools` syntactically present as arrays.
Stated from the specification in order to formulate claims about outputs
that are, or are not, parseable as Decisions; the source performs no such
validation. -/
def isDecisionJson (j : Json) : Bool :=
  (match jsGet j "response" with | some (Json.str _) => true | _ => false)
    && (match jsGet j "actions" with | some (Json.arr _) => true | _ => false)
    && (match jsGet j "newTools" with | some (Json.arr _) => true | _ => false)

/-- A provider output consisting of a JSON body wrapped in code fences. -/
def fenceWrap (s : String) : String := "```json\n" ++ s ++ "\n```"

/-- A provider output with prose before the code fences. -/
def proseFenced : String := "Here is the JSON:\n```json\n\x7b\"response\": \"hi\"\x7d\n```"

/-- Concrete fixtures used by witnesses. -/
def toolA : Tool := { name := "a", description := "da", implementation := "return 1;" }

def toolA2 : Tool := { name := "a", description := "da", implementation := "return 42;" }

def newToolDecisionText : String :=
  "\x7b\"reasoning\": \"r\", \"actions\": [], \"newTools\": [\x7b\"name\": \"t\", \"description\": \"d\", \"implementation\": \"return 1;\"\x7d], \"response\": \"done\"\x7d"

def noToolsDecisionText : String :=
  "\x7b\"reasoning\": \"r\", \"actions\": [], \"newTools\": [], \"response\": \"hi\"\x7d"

def demoOracles : Oracles :=
  { provider := fun _ => ProviderOut.content (some newToolDecisionText),
    evalImpl := fun _ _ => ExecOutcome.ok Json.null,
    stringifyResults := fun _ => "" }

def quietOracles : Oracles :=
  { provider := fun _ => ProviderOut.content (some noToolsDecisionText),
    evalImpl := fun _ _ => ExecOutcome.ok Json.null,
    stringifyResults := fun _ => "" }

def demoState : AgentState :=
  { history := [], tools := [], sourceFile := "this.tools = [\n\n];".data, histFile := "[]" }

theorem string_mk_data (s : String) : String.mk s.data = s := rfl

theorem toolNotFoundMsg_ne_empty (name : String) : toolNotFoundMsg name ≠ "" := by
  intro h
  have hl := congrArg String.length h
  simp only [toolNotFoundMsg, String.length_append] at hl
  have h1 : "Tool ".length = 5 := rfl
  have h2 : "".length = 0 := rfl
  omega

theorem execFailedMsg_ne_empty (m : String) : execFailedMsgStart ++ m ≠ "" := by
  intro h
  have hl := congrArg String.length h
  simp only [String.length_append] at hl
  have h1 : execFailedMsgStart.length = 23 := rfl
  have h2 : "".length = 0 := rfl
  omega

theorem executeTool_not_found (tools : List Tool) (evalImpl : String → List Json → ExecOutcome)
    (name : String) (args : List Json)
    (h : tools.find? (fun t => t.name == name) = none) :
    executeTool tools evalImpl name args =
      { success := false, result := Json.null, error := some (toolNotFoundMsg name) } := by
  unfold executeTool
  rw [h]

theorem executeTool_found (tools : List Tool) (evalImpl : String → List Json → ExecOutcome)
    (name : String) (args : List Json) (tool : Tool)
    (h : tools.find? (fun t => t.name == name) = some tool) :
    executeTool tools evalImpl name args =
      match evalImpl tool.implementation args with
      | ExecOutcome.ok v => { success := true, result := v, error := none }
      | ExecOutcome.compileError m => { success := false, result := Json.null, error := some m }
      | ExecOutcome.syncThrow m =>
        { success := false, result := Json.null, error := some (execFailedMsgStart ++ m) }
      | ExecOutcome.asyncReject m =>
        { success := false, result := Json.null, error := some m } := by
  unfold executeTool
  rw [h]

/-- C1 (amended): `executeTool` always returns a `ToolResult` — the model is a
total function, so no exception escapes and the process never terminates on a
tool failure.  On every failure path `error` is present: the not-found message
and the wrapped synchronous-throw message are provably non-empty, while a
compilation error or an asynchronous rejection passes the underlying message
through unchanged, so those may be empty. -/
theorem executeTool_failure_error_text (tools : List Tool)
    (evalImpl : String → List Json → ExecOutcome) (name : String) (args : List Json) :
    ((executeTool tools evalImpl name args).success = false ↔
      ((executeTool tools evalImpl name args).error).isSome = true)
    ∧ (tools.find? (fun t => t.name == name) = none →
        (executeTool tools evalImpl name args).error = some (toolNotFoundMsg name) ∧
          toolNotFoundMsg name ≠ "")
    ∧ (∀ t, tools.find? (fun t => t.name == name) = some t →
        (∀ m, evalImpl t.implementation args = ExecOutcome.syncThrow m →
          (executeTool tools evalImpl name args).error = some (execFailedMsgStart ++ m) ∧
            execFailedMsgStart ++ m ≠ "")
        ∧ (∀ m, evalImpl t.implementation args = ExecOutcome.compileError m →
            (executeTool tools evalImpl name args).error = some m)
        ∧ (∀ m, evalImpl t.implementation args = ExecOutcome.asyncReject m →
            (executeTool tools evalImpl name args).error = some m)
        ∧ (∀ v, evalImpl t.implementation args = ExecOutcome.ok v →
            (executeTool tools evalImpl name args).success = true)) := by
  cases hf : tools.find? (fun t => t.name == name) with
  | none =>
    rw [executeTool_not_found tools evalImpl name args hf]
    exact ⟨by simp, fun _ => ⟨rfl, toolNotFoundMsg_ne_empty name⟩,
      fun t ht => Option.noConfusion ht⟩
  | some tool =>
    rw [executeTool_found tools evalImpl name args tool hf]
    refine ⟨?_, fun hn => Option.noConfusion hn, ?_⟩
    · cases evalImpl tool.implementation args <;> simp
    · intro t ht
      obtain rfl : tool = t := Option.some.inj ht
      refine ⟨fun m hm => ?_, fun m hm => ?_, fun m hm => ?_, fun v hv => ?_⟩
      · rw [hm]
        exact ⟨rfl, execFailedMsg_ne_empty m⟩
      · rw [hm]
      · rw [hm]
      · rw [hv]

/-- C1 witness: the theorem applied to a concrete one-tool registry and a
name absent from it. -/
theorem executeTool_failure_error_text_witness :
    (executeTool [toolA] (fun _ _ => ExecOutcome.syncThrow "boom") "missing" []).error =
        some (toolNotFoundMsg "missing") ∧ toolNotFoundMsg "missing" ≠ "" :=
  (executeTool_failure_error_text [toolA] (fun _ _ => ExecOutcome.syncThrow "boom")
    "missing" []).2.1 rfl

/-- C1 counterexample: a tool whose implementation returns a rejected promise
carrying `new Error()` — the rejection bypasses the synchronous wrapper, the
outer catch reads the empty `message`, and the returned `ToolResult` has an
empty `error` string, contradicting the claimed non-empty error text. -/
theorem executeTool_empty_error_counterexample :
    (executeTool [⟨"t", "d", "return Promise.reject(new Error());"⟩]
        (fun _ _ => ExecOutcome.asyncReject "") "t" []).success = false
    ∧ ¬ (∀ e, (executeTool [⟨"t", "d", "return Promise.reject(new Error());"⟩]
          (fun _ _ => ExecOutcome.asyncReject "") "t" []).error = some e → e ≠ "") :=
  ⟨rfl, fun h => h "" rfl rfl⟩

/-- C9 (amended): in every `executeTool` output, `error` is attached iff the
call failed; on failure `result` is the JavaScript `null`; on success `result`
is exactly the value the implementation produced — which may itself be `null`,
so `result` carrying a value is not equivalent to `success`. -/
theorem executeTool_result_error_discipline (tools : List Tool)
    (evalImpl : String → List Json → ExecOutcome) (name : String) (args : List Json) :
    (((executeTool tools evalImpl name args).error).isSome = true ↔
      (executeTool tools evalImpl name args).success = false)
    ∧ ((executeTool tools evalImpl name args).success = false →
        (executeTool tools evalImpl name args).result = Json.null)
    ∧ (∀ t v, tools.find? (fun t => t.name == name) = some t →
        evalImpl t.implementation args = ExecOutcome.ok v →
        executeTool tools evalImpl name args = { success := true, result := v, error := none }) := by
  cases hf : tools.find? (fun t => t.name == name) with
  | none =>
    rw [executeTool_not_found tools evalImpl name args hf]
    exact ⟨by simp, fun _ => rfl, fun t v ht => Option.noConfusion ht⟩
  | some tool =>
    rw [executeTool_found tools evalImpl name args tool hf]
    refine ⟨?_, ?_, ?_⟩
    · cases evalImpl tool.implementation args <;> simp
    · cases evalImpl tool.implementation args <;> simp
    · intro t v ht hv
      obtain rfl : tool = t := Option.some.inj ht
      rw [hv]

/-- C9 witness: a successful execution with a non-null value. -/
theorem executeTool_result_error_discipline_witness :
    executeTool [toolA] (fun _ _ => ExecOutcome.ok (Json.str "one")) "a" [] =
      { success := true, result := Json.str "one", error := none } :=
  (executeTool_result_error_discipline [toolA] (fun _ _ => ExecOutcome.ok (Json.str "one"))
    "a" []).2.2 toolA (Json.str "one") rfl rfl

/-- C9 counterexample: a tool implementation `return null;` succeeds with
`result = null`, so `success = true` does not imply the `result` field
carries a value — `result` is a required field that is `null` both here and
on failures, refuting the claimed equivalence. -/
theorem executeTool_null_result_counterexample :
    executeTool [⟨"t", "d", "return null;"⟩] (fun _ _ => ExecOutcome.ok Json.null) "t" []
      = { success := true, result := Json.null, error := none }
    ∧ ¬ (((executeTool [⟨"t", "d", "return null;"⟩]
            (fun _ _ => ExecOutcome.ok Json.null) "t" []).result ≠ Json.null) ↔
          (executeTool [⟨"t", "d", "return null;"⟩]
            (fun _ _ => ExecOutcome.ok Json.null) "t" []).success = true) :=
  ⟨rfl, fun h => (h.mpr rfl) rfl⟩

set_option maxRecDepth 8000

/-- C3 counterexample: with empty prior history and input `hi`, the prompt
actually sent on the first pass of a turn is
`[system, user hi, user hi]` — `processUserInput` pushes the user turn into
history before `generateResponse` spreads the history and appends the input
again — so it is not `[system, <prior>, user hi]` as claimed. -/
theorem prompt_duplicate_user_counterexample :
    buildMessages [] ([] ++ [Message.mk Role.user "hi"]) "hi" none ≠
      [Message.mk Role.system (getSystemPrompt []), Message.mk Role.user "hi"] := by
  intro h
  have hl := congrArg List.length h
  simp [buildMessages] at hl

/-- C3 (amended): the prompt is exactly one leading system turn carrying the
static instructions and the name-and-description tool catalog (independent of
implementation text), then the history as it stands at call time in order,
then the input as one further user turn, then — iff tool results are passed —
one trailing system turn embedding them.  Because `processUserInput` pushes
the current input into history before calling, the prompt a turn actually
sends carries the current input twice. -/
theorem prompt_structure (tools : List Tool) (history : List Message) (input : String) :
    (∀ tr, buildMessages tools history input tr =
        Message.mk Role.system (getSystemPrompt tools) ::
          (history ++ [Message.mk Role.user input] ++
            (match tr with
             | some ser => [Message.mk Role.system (toolResultsContent ser)]
             | none => [])))
    ∧ (∀ tools2, tools.map (fun t => (t.name, t.description)) =
          tools2.map (fun t => (t.name, t.description)) →
        getSystemPrompt tools = getSystemPrompt tools2)
    ∧ (∀ prior, buildMessages tools (prior ++ [Message.mk Role.user input]) input none =
        Message.mk Role.system (getSystemPrompt tools) ::
          (prior ++ [Message.mk Role.user input, Message.mk Role.user input])) := by
  refine ⟨?_, ?_, ?_⟩
  · intro tr
    cases tr <;> simp [buildMessages]
  · intro tools2 hmap
    have key : ∀ l : List Tool, l.map (fun tool => tool.name ++ ": " ++ tool.description) =
        (l.map (fun t => (t.name, t.description))).map (fun p => p.1 ++ ": " ++ p.2) := by
      intro l
      rw [List.map_map]
      rfl
    unfold getSystemPrompt
    rw [key, key, hmap]
  · intro prior
    simp [buildMessages]

/-- C3 witness: the structural description, the catalog ignoring a changed
implementation, and the duplicated user turn, at concrete values. -/
theorem prompt_structure_witness :
    (buildMessages [toolA] [] "q" (some "SER") =
      Message.mk Role.system (getSystemPrompt [toolA]) ::
        ([] ++ [Message.mk Role.user "q"] ++
          [Message.mk Role.system (toolResultsContent "SER")]))
    ∧ getSystemPrompt [toolA] = getSystemPrompt [toolA2]
    ∧ buildMessages [toolA] ([] ++ [Message.mk Role.user "q"]) "q" none =
        Message.mk Role.system (getSystemPrompt [toolA]) ::
          ([] ++ [Message.mk Role.user "q", Message.mk Role.user "q"]) :=
  ⟨(prompt_structure [toolA] [] "q").1 (some "SER"),
    (prompt_structure [toolA] [] "q").2.1 [toolA2] rfl,
    (prompt_structure [toolA] [] "q").2.2 []⟩

/-- C4: whenever the (possibly refreshed) decision's `newTools` guard passes,
`processUserInput` commits the tools (in memory and into the source file),
saves the history — which still ends with the user turn, no assistant turn is
appended — and exits; the `replied` outcome, which alone returns the response
to the caller, is unreachable. -/
theorem processUserInput_newTools_restart (o : Oracles) (st : AgentState) (input : String)
    (h : jsLenPos (jsGet (finalDecision o st input) "newTools") = true) :
    processUserInput o st input =
      ProcessOutcome.exited
        { history := st.history ++ [Message.mk Role.user input],
          tools := st.tools ++ newToolsOf (finalDecision o st input),
          sourceFile := replaceSeed st.sourceFile
            (seedReplacement (st.tools ++ newToolsOf (finalDecision o st input))),
          histFile := stringifyMessages (st.history ++ [Message.mk Role.user input]) }
    ∧ ∀ r st2, processUserInput o st input ≠ ProcessOutcome.replied r st2 := by
  constructor
  · simp only [processUserInput, updateTools, h, if_true]
  · intro r st2
    simp only [processUserInput, updateTools, h, if_true]
    exact fun hh => ProcessOutcome.noConfusion hh

/-- C4 witness: a provider that proposes one new tool makes the turn exit
without an assistant turn. -/
theorem processUserInput_newTools_restart_witness :
    processUserInput demoOracles demoState "add a tool" =
      ProcessOutcome.exited
        { history := demoState.history ++ [Message.mk Role.user "add a tool"],
          tools := demoState.tools ++ newToolsOf (finalDecision demoOracles demoState "add a tool"),
          sourceFile := replaceSeed demoState.sourceFile
            (seedReplacement (demoState.tools ++
              newToolsOf (finalDecision demoOracles demoState "add a tool"))),
          histFile := stringifyMessages
            (demoState.history ++ [Message.mk Role.user "add a tool"]) } :=
  (processUserInput_newTools_restart demoOracles demoState "add a tool" (by decide)).1

/-- C10: when the last persisted turn is a user turn, the startup block feeds
its content back through `processUserInput`, which appends the same content
as a fresh user turn — so the history that the turn then persists contains
two consecutive identical user turns; the replay is not idempotent on the
turn sequence. -/
theorem startup_replay_duplicates_user_turn (o : Oracles) (H : List Message) (c : String)
    (ts : List Tool) (sf : List Char) (hf : String) :
    ∃ out, startupStep o ⟨H ++ [Message.mk Role.user c], ts, sf, hf⟩ = some out ∧
      ∃ tail, (outcomeState out).history =
          H ++ [Message.mk Role.user c, Message.mk Role.user c] ++ tail ∧
        (outcomeState out).histFile = stringifyMessages ((outcomeState out).history) := by
  refine ⟨processUserInput o ⟨H ++ [Message.mk Role.user c], ts, sf, hf⟩ c, ?_, ?_⟩
  · simp [startupStep, List.getLast?_concat]
  · unfold processUserInput
    cases h : jsLenPos (jsGet (finalDecision o ⟨H ++ [Message.mk Role.user c], ts, sf, hf⟩ c)
        "newTools") with
    | true =>
      refine ⟨[], ?_, ?_⟩ <;> simp [outcomeState, h]
    | false =>
      refine ⟨[Message.mk Role.assistant
        (responseOf (finalDecision o ⟨H ++ [Message.mk Role.user c], ts, sf, hf⟩ c))], ?_, ?_⟩ <;>
        simp [outcomeState, h]

set_option maxHeartbeats 1000000 in
theorem stripFences_length_le : ∀ s : List Char, (stripFences s).length ≤ s.length := by
  intro s
  induction s using stripFences.induct <;> simp [stripFences] <;> omega

set_option maxHeartbeats 1000000 in
theorem stripFences_fix_tail (c : Char) (cs : List Char)
    (hfix : stripFences (c :: cs) = c :: cs) : stripFences cs = cs := by
  rw [stripFences.eq_def] at hfix
  split at hfix
  · rename_i rest hpat
    exfalso
    have hl := congrArg List.length hfix
    have hb := stripFences_length_le rest
    have hp := congrArg List.length hpat
    simp only [List.length_cons] at hl hp
    omega
  · rename_i rest hn1 hpat
    exfalso
    have hl := congrArg List.length hfix
    have hb := stripFences_length_le rest
    have hp := congrArg List.length hpat
    simp only [List.length_cons] at hl hp
    omega
  · rename_i rest hpat
    exfalso
    have hl := congrArg List.length hfix
    have hb := stripFences_length_le rest
    have hp := congrArg List.length hpat
    simp only [List.length_cons] at hl hp
    omega
  · rename_i rest hn1 hn2 hpat
    exfalso
    have hl := congrArg List.length hfix
    have hb := stripFences_length_le rest
    have hp := congrArg List.length hpat
    simp only [List.length_cons] at hl hp
    omega
  · rename_i c2 rest hn1 hn2 hn3 hn4 hpat
    injection hpat with hc hr
    subst hc
    subst hr
    injection hfix
  · rename_i hpat
    exact List.noConfusion hpat

set_option maxHeartbeats 1000000 in
theorem stripFences_triple_lt (cs : List Char) :
    (stripFences ('`' :: '`' :: '`' :: cs)).length < ('`' :: '`' :: '`' :: cs).length := by
  rw [stripFences.eq_def]
  split
  · rename_i rest hpat
    have hp := congrArg List.length hpat
    have hb := stripFences_length_le rest
    simp only [List.length_cons] at hp ⊢
    omega
  · rename_i rest hn1 hpat
    have hp := congrArg List.length hpat
    have hb := stripFences_length_le rest
    simp only [List.length_cons] at hp ⊢
    omega
  · rename_i rest hpat
    exact absurd (List.head_eq_of_cons_eq hpat) (by decide)
  · rename_i rest hn1 hn2 hpat
    have hp := congrArg List.length hpat
    have hb := stripFences_length_le rest
    simp only [List.length_cons] at hp ⊢
    omega
  · rename_i c2 rest hn1 hn2 hn3 hn4 hpat
    exfalso
    injection hpat with h1 h2
    exact hn4 cs h1.symm h2.symm
  · rename_i hpat
    exact List.noConfusion hpat

set_option maxHeartbeats 1000000 in
theorem stripFences_nl_triple_lt (cs : List Char) :
    (stripFences ('\n' :: '`' :: '`' :: '`' :: cs)).length <
      ('\n' :: '`' :: '`' :: '`' :: cs).length := by
  rw [stripFences.eq_def]
  split
  · rename_i rest hpat
    exact absurd (List.head_eq_of_cons_eq hpat) (by decide)
  · rename_i rest hn1 hpat
    exact absurd (List.head_eq_of_cons_eq hpat) (by decide)
  · rename_i rest hpat
    have hp := congrArg List.length hpat
    have hb := stripFences_length_le rest
    simp only [List.length_cons] at hp ⊢
    omega
  · rename_i rest hn1 hn2 hpat
    exact absurd (List.head_eq_of_cons_eq hpat) (by decide)
  · rename_i c2 rest hn1 hn2 hn3 hn4 hpat
    exfalso
    injection hpat with h1 h2
    exact hn3 cs h1.symm h2.symm
  · rename_i hpat
    exact List.noConfusion hpat
set_option maxHeartbeats 2000000 in
theorem stripFences_close_fix : ∀ (s : List Char), stripFences s = s →
    stripFences (s ++ '\n' :: '`' :: '`' :: '`' :: []) = s := by
  intro s
  induction s with
  | nil => intro _; rfl
  | cons c cs ih =>
    intro hfix
    have hcs : stripFences cs = cs := stripFences_fix_tail c cs hfix
    rw [List.cons_append, stripFences.eq_def]
    split
    · rename_i rest hpat
      exfalso
      injection hpat with h1 h2
      subst h1
      cases cs with
      | nil =>
        rw [List.nil_append] at h2
        injection h2 with hx _
        exact absurd hx (by decide)
      | cons d1 cs1 =>
        rw [List.cons_append] at h2
        injection h2 with h3 h4
        subst h3
        cases cs1 with
        | nil =>
          rw [List.nil_append] at h4
          injection h4 with hx _
          exact absurd hx (by decide)
        | cons d2 cs2 =>
          rw [List.cons_append] at h4
          injection h4 with h5 h6
          subst h5
          have hlt := stripFences_triple_lt cs2
          rw [hfix] at hlt
          exact absurd hlt (lt_irrefl _)
    · rename_i rest hn1 hpat
      exfalso
      injection hpat with h1 h2
      subst h1
      cases cs with
      | nil =>
        rw [List.nil_append] at h2
        injection h2 with hx _
        exact absurd hx (by decide)
      | cons d1 cs1 =>
        rw [List.cons_append] at h2
        injection h2 with h3 h4
        subst h3
        cases cs1 with
        | nil =>
          rw [List.nil_append] at h4
          injection h4 with hx _
          exact absurd hx (by decide)
        | cons d2 cs2 =>
          rw [List.cons_append] at h4
          injection h4 with h5 h6
          subst h5
          have hlt := stripFences_triple_lt cs2
          rw [hfix] at hlt
          exact absurd hlt (lt_irrefl _)
    · rename_i rest hpat
      exfalso
      injection hpat with h1 h2
      subst h1
      cases cs with
      | nil =>
        rw [List.nil_append] at h2
        injection h2 with hx _
        exact absurd hx (by decide)
      | cons d1 cs1 =>
        rw [List.cons_append] at h2
        injection h2 with h3 h4
        subst h3
        cases cs1 with
        | nil =>
          rw [List.nil_append] at h4
          injection h4 with hx _
          exact absurd hx (by decide)
        | cons d2 cs2 =>
          rw [List.cons_append] at h4
          injection h4 with h5 h6
          subst h5
          cases cs2 with
          | nil =>
            rw [List.nil_append] at h6
            injection h6 with hx _
            exact absurd hx (by decide)
          | cons d3 cs3 =>
            rw [List.cons_append] at h6
            injection h6 with h7 h8
            subst h7
            have hlt := stripFences_nl_triple_lt cs3
            rw [hfix] at hlt
            exact absurd hlt (lt_irrefl _)
    · rename_i rest hn1 hn2 hpat
      exfalso
      injection hpat with h1 h2
      subst h1
      cases cs with
      | nil =>
        rw [List.nil_append] at h2
        injection h2 with hx _
        exact absurd hx (by decide)
      | cons d1 cs1 =>
        rw [List.cons_append] at h2
        injection h2 with h3 h4
        subst h3
        cases cs1 with
        | nil =>
          rw [List.nil_append] at h4
          injection h4 with hx _
          exact absurd hx (by decide)
        | cons d2 cs2 =>
          rw [List.cons_append] at h4
          injection h4 with h5 h6
          subst h5
          have hlt := stripFences_triple_lt cs2
          rw [hfix] at hlt
          exact absurd hlt (lt_irrefl _)
    · rename_i c2 rest hn1 hn2 hn3 hn4 hpat
      injection hpat with h1 h2
      subst h1
      rw [← h2, ih hcs]
    · rename_i hpat
      exact List.noConfusion hpat

set_option maxHeartbeats 1000000 in
theorem stripFences_fenced_fix (s : List Char) (h : stripFences s = s) :
    stripFences ('`' :: '`' :: '`' :: 'j' :: 's' :: 'o' :: 'n' :: '\n' ::
      (s ++ '\n' :: '`' :: '`' :: '`' :: [])) = s := by
  rw [stripFences]
  exact stripFences_close_fix s h

/-- C2 (amended): `generateResponse` returns the fixed fallback decision —
whose `actions` and `newTools` are empty arrays and whose `response` is the
fixed apology — exactly when the provider call fails or the stripped content
fails `JSON.parse`; the provider is called once, with no retry.  When the
text parses as any JSON value at all, that value is returned as-is, with no
validation of the Decision shape. -/
theorem generateResponse_fallback (c : Option String) :
    generateFromProvider ProviderOut.failure = fallbackDecision
    ∧ (parseJsonChars (strippedJsonStr c) = none →
        generateFromProvider (ProviderOut.content c) = fallbackDecision)
    ∧ (∀ j, parseJsonChars (strippedJsonStr c) = some j →
        generateFromProvider (ProviderOut.content c) = j)
    ∧ jsGet fallbackDecision "actions" = some (Json.arr [])
    ∧ jsGet fallbackDecision "newTools" = some (Json.arr [])
    ∧ jsGet fallbackDecision "response" =
        some (Json.str "Error: Failed to process the request. Please try again.") := by
  refine ⟨rfl, ?_, ?_, rfl, rfl, rfl⟩
  · intro h
    show (match parseJsonChars (strippedJsonStr c) with
      | some j => j
      | none => fallbackDecision) = fallbackDecision
    rw [h]
  · intro j h
    show (match parseJsonChars (strippedJsonStr c) with
      | some j2 => j2
      | none => fallbackDecision) = j
    rw [h]

/-- C2 witness: a failing provider call and an unparseable output both
produce the fallback. -/
theorem generateResponse_fallback_witness :
    generateFromProvider ProviderOut.failure = fallbackDecision
    ∧ generateFromProvider (ProviderOut.content (some "sorry, no JSON today")) =
        fallbackDecision :=
  ⟨(generateResponse_fallback none).1,
    (generateResponse_fallback (some "sorry, no JSON today")).2.1 rfl⟩

/-- C2 counterexample: a provider output of `\x7b\x7d` parses as JSON but is
not a Decision (no `response`, `actions` or `newTools`), yet
`generateResponse` returns the empty object itself, not the fallback — so
`cannot be parsed as a Decision` does not imply the fallback is returned. -/
theorem generateResponse_nondecision_counterexample :
    generateFromProvider (ProviderOut.content (some "\x7b\x7d")) = Json.obj []
    ∧ isDecisionJson (Json.obj []) = false
    ∧ generateFromProvider (ProviderOut.content (some "\x7b\x7d")) ≠ fallbackDecision := by
  refine ⟨rfl, rfl, ?_⟩
  intro h
  exact absurd (congrArg (fun j => strField j "response") h) (by decide)

/-- C8 (amended): the global replacement deletes every fence-marker
occurrence in the text, not only an outer wrapping.  Consequently, output
that wraps a JSON body in code-fence markers is handled exactly like the
bare body whenever the body itself contains no fence-marker match — i.e. is
unchanged by the stripping, which holds in particular for any body with
fewer than three consecutive backticks; a body that does contain a marker
(such as a triple backtick inside a string value) is itself mangled, the
interior markers being deleted too, so `parsed correctly` fails there.  Any
text that still fails `JSON.parse` after stripping yields the fixed fallback
without raising.  (Prose around the fences is not removed either; see the
counterexample.) -/
theorem generateResponse_fence_stripping (s : String)
    (hb : stripFences s.data = s.data) (hne : s ≠ "") :
    generateFromProvider (ProviderOut.content (some (fenceWrap s))) =
      generateFromProvider (ProviderOut.content (some s))
    ∧ (∀ c, parseJsonChars (strippedJsonStr c) = none →
        generateFromProvider (ProviderOut.content c) = fallbackDecision)
    ∧ generateFromProvider (ProviderOut.content
        (some (fenceWrap "\x7b\"response\": \"x```y\"\x7d"))) =
      Json.obj [("response", Json.str "xy")]
    ∧ Json.obj [("response", Json.str "xy")] ≠
        Json.obj [("response", Json.str "x```y")] := by
  refine ⟨?_, ?_, rfl, ?_⟩
  · have hdata : (fenceWrap s).data =
        '`' :: '`' :: '`' :: 'j' :: 's' :: 'o' :: 'n' :: '\n' ::
          (s.data ++ '\n' :: '`' :: '`' :: '`' :: []) := by
      show ("```json\n" ++ s ++ "\n```").data = _
      rw [String.data_append, String.data_append]
      rfl
    have hfw : fenceWrap s ≠ "" := by
      intro h
      have hd := congrArg String.data h
      rw [hdata] at hd
      exact List.noConfusion hd
    have h1 : contentOrDefault (some (fenceWrap s)) = fenceWrap s := by
      have hbe : (fenceWrap s == "") = false := beq_eq_false_iff_ne.mpr hfw
      simp [contentOrDefault, hbe]
    have h2 : contentOrDefault (some s) = s := by
      have hbe : (s == "") = false := beq_eq_false_iff_ne.mpr hne
      simp [contentOrDefault, hbe]
    have key : strippedJsonStr (some (fenceWrap s)) = strippedJsonStr (some s) := by
      unfold strippedJsonStr
      rw [h1, h2, hdata, stripFences_fenced_fix s.data hb, hb]
    show (match parseJsonChars (strippedJsonStr (some (fenceWrap s))) with
      | some j => j
      | none => fallbackDecision) =
      (match parseJsonChars (strippedJsonStr (some s)) with
       | some j => j
       | none => fallbackDecision)
    rw [key]
  · intro c h
    show (match parseJsonChars (strippedJsonStr c) with
      | some j => j
      | none => fallbackDecision) = fallbackDecision
    rw [h]
  · intro h
    exact absurd (congrArg (fun j => strField j "response") h) (by decide)

/-- C8 witness: a concrete fenced decision object parses like its bare body —
also when the body contains a lone backtick, which is no fence-marker match —
and a post-strip parse failure falls back. -/
theorem generateResponse_fence_stripping_witness :
    generateFromProvider
        (ProviderOut.content (some (fenceWrap "\x7b\"response\": \"ok\"\x7d"))) =
      generateFromProvider (ProviderOut.content (some "\x7b\"response\": \"ok\"\x7d"))
    ∧ generateFromProvider
        (ProviderOut.content (some (fenceWrap "\x7b\"response\": \"a`b\"\x7d"))) =
      generateFromProvider (ProviderOut.content (some "\x7b\"response\": \"a`b\"\x7d"))
    ∧ generateFromProvider (ProviderOut.content (some "still not JSON")) = fallbackDecision :=
  ⟨(generateResponse_fence_stripping "\x7b\"response\": \"ok\"\x7d" (by decide) (by decide)).1,
    (generateResponse_fence_stripping "\x7b\"response\": \"a`b\"\x7d" (by decide)
      (by decide)).1,
    (generateResponse_fence_stripping "\x7b\"response\": \"ok\"\x7d" (by decide)
      (by decide)).2.1 (some "still not JSON") rfl⟩

/-- C8 counterexample: prose before the fences survives the stripping, so
although the fenced body is valid JSON, parsing fails and the fallback — not
the embedded object — is returned, refuting `prose wrapped in code fences
around valid JSON is extracted and parsed correctly`. -/
theorem generateResponse_prose_fence_counterexample :
    parseJsonChars "\x7b\"response\": \"hi\"\x7d".data =
      some (Json.obj [("response", Json.str "hi")])
    ∧ generateFromProvider (ProviderOut.content (some proseFenced)) = fallbackDecision
    ∧ fallbackDecision ≠ Json.obj [("response", Json.str "hi")] := by
  refine ⟨rfl, rfl, ?_⟩
  intro h
  exact absurd (congrArg (fun j => strField j "response") h) (by decide)

theorem finalDecision_is_generated (o : Oracles) (st : AgentState) (input : String) :
    ∃ msgs, finalDecision o st input = generateResponseJson o msgs := by
  unfold finalDecision
  by_cases h : jsLenPos (jsGet (firstDecision o st input) "actions") = true
  · rw [if_pos h]
    exact ⟨_, rfl⟩
  · rw [if_neg h]
    exact ⟨_, rfl⟩

theorem processUserInput_no_newTools (o : Oracles) (st : AgentState) (i : String)
    (h : jsLenPos (jsGet (finalDecision o st i) "newTools") = false) :
    processUserInput o st i =
      ProcessOutcome.replied (responseOf (finalDecision o st i))
        { history := st.history ++ [Message.mk Role.user i,
            Message.mk Role.assistant (responseOf (finalDecision o st i))],
          tools := st.tools, sourceFile := st.sourceFile,
          histFile := stringifyMessages (st.history ++ [Message.mk Role.user i,
            Message.mk Role.assistant (responseOf (finalDecision o st i))]) } := by
  simp only [processUserInput, h, Bool.false_eq_true, if_false, List.append_assoc,
    List.cons_append, List.nil_append]

theorem interleaveTurns_length : ∀ l : List (String × String),
    (interleaveTurns l).length = 2 * l.length := by
  intro l
  induction l with
  | nil => rfl
  | cons p rest ih =>
    obtain ⟨i, r⟩ := p
    simp [interleaveTurns, ih]
    omega

theorem runInputs_no_newTools (o : Oracles)
    (hNT : ∀ msgs, jsLenPos (jsGet (generateResponseJson o msgs) "newTools") = false) :
    ∀ (inputs : List String) (st : AgentState),
      ∃ rs st2, runInputs o st inputs = RunResult.ok st2
        ∧ rs.length = inputs.length
        ∧ st2.history = st.history ++ interleaveTurns (inputs.zip rs)
        ∧ st2.tools = st.tools ∧ st2.sourceFile = st.sourceFile
        ∧ (st2.histFile = stringifyMessages st2.history ∨
            (inputs = [] ∧ st2.histFile = st.histFile)) := by
  intro inputs
  induction inputs with
  | nil =>
    intro st
    exact ⟨[], st, rfl, rfl, by simp [interleaveTurns], rfl, rfl, Or.inr ⟨rfl, rfl⟩⟩
  | cons i rest ih =>
    intro st
    have hfd : jsLenPos (jsGet (finalDecision o st i) "newTools") = false := by
      obtain ⟨msgs, hmsgs⟩ := finalDecision_is_generated o st i
      rw [hmsgs]
      exact hNT msgs
    have hstep := processUserInput_no_newTools o st i hfd
    set r := responseOf (finalDecision o st i) with hr
    set st1 : AgentState :=
      { history := st.history ++ [Message.mk Role.user i, Message.mk Role.assistant r],
        tools := st.tools, sourceFile := st.sourceFile,
        histFile := stringifyMessages (st.history ++ [Message.mk Role.user i,
          Message.mk Role.assistant r]) } with hst1
    obtain ⟨rs2, st2, hrun, hlen, hhist, htools, hsf, hhf⟩ := ih st1
    refine ⟨r :: rs2, st2, ?_, ?_, ?_, ?_, ?_, ?_⟩
    · rw [runInputs, hstep]
      exact hrun
    · simp [hlen]
    · rw [hhist]
      simp [hst1, interleaveTurns]
      rfl
    · rw [htools]
    · rw [hsf]
    · left
      cases hhf with
      | inl hl => exact hl
      | inr hrr =>
        obtain ⟨hre, hfe⟩ := hrr
        subst hre
        have hs : st1 = st2 := by
          have h12 : RunResult.ok st1 = RunResult.ok st2 := hrun
          injection h12
        have hh2 : st2.history = st1.history := by
          rw [hhist]
          simp [interleaveTurns]
        rw [hfe, hh2]

/-- C7: starting from empty history, if the provider never proposes new tools
(so every decision of the run, first or refreshed, has empty `newTools`),
then every turn completes with a reply, and after `N` inputs the history —
as saved to the history file on the last turn — is exactly the `2N` turns
`user i1, assistant r1, ..., user iN, assistant rN` in submission order. -/
theorem history_even_alternating (o : Oracles) (tools : List Tool) (sf : List Char)
    (hf : String) (inputs : List String)
    (hNT : ∀ msgs, jsLenPos (jsGet (generateResponseJson o msgs) "newTools") = false) :
    ∃ rs st2, runInputs o ⟨[], tools, sf, hf⟩ inputs = RunResult.ok st2
      ∧ rs.length = inputs.length
      ∧ st2.history = interleaveTurns (inputs.zip rs)
      ∧ st2.history.length = 2 * inputs.length
      ∧ st2.tools = tools ∧ st2.sourceFile = sf
      ∧ (inputs ≠ [] → st2.histFile = stringifyMessages st2.history) := by
  obtain ⟨rs, st2, hrun, hlen, hhist, htools, hsf, hhf⟩ :=
    runInputs_no_newTools o hNT inputs ⟨[], tools, sf, hf⟩
  refine ⟨rs, st2, hrun, hlen, ?_, ?_, htools, hsf, ?_⟩
  · simpa using hhist
  · have hz : (inputs.zip rs).length = inputs.length := by
      rw [List.length_zip, hlen, Nat.min_self]
    rw [hhist]
    simp [interleaveTurns_length, hz]
  · intro hne
    cases hhf with
    | inl hl => exact hl
    | inr hr => exact absurd hr.1 hne

/-- C7 witness: two inputs against a provider that always answers with a
fixed no-tools decision. -/
theorem history_even_alternating_witness :
    ∃ rs st2, runInputs quietOracles ⟨[], [], [], ""⟩ ["first input", "second input"] =
        RunResult.ok st2
      ∧ rs.length = (["first input", "second input"] : List String).length
      ∧ st2.history = interleaveTurns ((["first input", "second input"] : List String).zip rs)
      ∧ st2.history.length = 2 * (["first input", "second input"] : List String).length
      ∧ st2.tools = ([] : List Tool) ∧ st2.sourceFile = ([] : List Char)
      ∧ ((["first input", "second input"] : List String) ≠ [] →
          st2.histFile = stringifyMessages st2.history) :=
  history_even_alternating quietOracles [] [] "" ["first input", "second input"]
    (fun _ => rfl)

theorem hexVal_hexDigitChar (n : Nat) (h : n < 16) : hexVal (hexDigitChar n) = some n := by
  interval_cases n <;> decide

theorem mapCons_parse (c : Char) (cs rest X : List Char)
    (hX : parseStrBody X = some (cs, rest)) :
    Option.map (fun p => (c :: p.1, p.2)) (parseStrBody X) = some (c :: cs, rest) := by
  rw [hX]
  rfl

set_option maxHeartbeats 2000000 in
theorem parseStrBody_escapeChars : ∀ (cs : List Char) (rest : List Char),
    parseStrBody (escapeChars cs ++ '"' :: rest) = some (cs, rest) := by
  intro cs
  induction cs with
  | nil => intro rest; rfl
  | cons c cs ih =>
    intro rest
    show parseStrBody ((escapeChar c ++ escapeChars cs) ++ '"' :: rest) = some (c :: cs, rest)
    rw [List.append_assoc]
    by_cases h1 : c = '"'
    · subst h1
      rw [escapeChar, if_pos rfl]
      show Option.map (fun p => ('"' :: p.1, p.2))
        (parseStrBody (escapeChars cs ++ '"' :: rest)) = some ('"' :: cs, rest)
      exact mapCons_parse _ _ _ _ (ih rest)
    · by_cases h2 : c = '\\'
      · subst h2
        rw [escapeChar, if_neg (by decide), if_pos rfl]
        show Option.map (fun p => ('\\' :: p.1, p.2))
          (parseStrBody (escapeChars cs ++ '"' :: rest)) = some ('\\' :: cs, rest)
        exact mapCons_parse _ _ _ _ (ih rest)
      · by_cases h3 : c = Char.ofNat 8
        · subst h3
          rw [escapeChar, if_neg (by decide), if_neg (by decide), if_pos rfl]
          show Option.map (fun p => (Char.ofNat 8 :: p.1, p.2))
            (parseStrBody (escapeChars cs ++ '"' :: rest)) = some (Char.ofNat 8 :: cs, rest)
          exact mapCons_parse _ _ _ _ (ih rest)
        · by_cases h4 : c = '\t'
          · subst h4
            rw [escapeChar, if_neg (by decide), if_neg (by decide), if_neg (by decide),
              if_pos rfl]
            show Option.map (fun p => ('\t' :: p.1, p.2))
              (parseStrBody (escapeChars cs ++ '"' :: rest)) = some ('\t' :: cs, rest)
            exact mapCons_parse _ _ _ _ (ih rest)
          · by_cases h5 : c = '\n'
            · subst h5
              rw [escapeChar, if_neg (by decide), if_neg (by decide), if_neg (by decide),
                if_neg (by decide), if_pos rfl]
              show Option.map (fun p => ('\n' :: p.1, p.2))
                (parseStrBody (escapeChars cs ++ '"' :: rest)) = some ('\n' :: cs, rest)
              exact mapCons_parse _ _ _ _ (ih rest)
            · by_cases h6 : c = Char.ofNat 12
              · subst h6
                rw [escapeChar, if_neg (by decide), if_neg (by decide), if_neg (by decide),
                  if_neg (by decide), if_neg (by decide), if_pos rfl]
                show Option.map (fun p => (Char.ofNat 12 :: p.1, p.2))
                  (parseStrBody (escapeChars cs ++ '"' :: rest)) =
                    some (Char.ofNat 12 :: cs, rest)
                exact mapCons_parse _ _ _ _ (ih rest)
              · by_cases h7 : c = '\r'
                · subst h7
                  rw [escapeChar, if_neg (by decide), if_neg (by decide), if_neg (by decide),
                    if_neg (by decide), if_neg (by decide), if_neg (by decide), if_pos rfl]
                  show Option.map (fun p => ('\r' :: p.1, p.2))
                    (parseStrBody (escapeChars cs ++ '"' :: rest)) = some ('\r' :: cs, rest)
                  exact mapCons_parse _ _ _ _ (ih rest)
                · by_cases h8 : c.toNat < 32
                  · rw [escapeChar, if_neg h1, if_neg h2, if_neg h3, if_neg h4, if_neg h5,
                      if_neg h6, if_neg h7, if_pos h8]
                    show parseStrBody ('\\' :: 'u' :: '0' :: '0' ::
                      hexDigitChar (c.toNat / 16) :: hexDigitChar (c.toNat % 16) ::
                        (escapeChars cs ++ '"' :: rest)) = some (c :: cs, rest)
                    rw [parseStrBody]
                    have hv0 : hexVal '0' = some 0 := by decide
                    have hv1 : hexVal (hexDigitChar (c.toNat / 16)) = some (c.toNat / 16) :=
                      hexVal_hexDigitChar _ (by omega)
                    have hv2 : hexVal (hexDigitChar (c.toNat % 16)) = some (c.toNat % 16) :=
                      hexVal_hexDigitChar _ (by omega)
                    rw [hv0, hv1, hv2]
                    show Option.map
                        (fun p => (Char.ofNat
                          (((0 * 16 + 0) * 16 + c.toNat / 16) * 16 + c.toNat % 16) :: p.1,
                            p.2))
                        (parseStrBody (escapeChars cs ++ '"' :: rest)) = some (c :: cs, rest)
                    have harith : ((0 * 16 + 0) * 16 + c.toNat / 16) * 16 + c.toNat % 16 =
                        c.toNat := by omega
                    rw [harith, Char.ofNat_toNat]
                    exact mapCons_parse _ _ _ _ (ih rest)
                  · rw [escapeChar, if_neg h1, if_neg h2, if_neg h3, if_neg h4, if_neg h5,
                      if_neg h6, if_neg h7, if_neg h8]
                    show parseStrBody (c :: (escapeChars cs ++ '"' :: rest)) =
                      some (c :: cs, rest)
                    rw [parseStrBody.eq_def]
                    split
                    · rename_i hpat
                      exact List.noConfusion hpat
                    · rename_i rest2 hpat
                      exact absurd (List.head_eq_of_cons_eq hpat) h1
                    · rename_i rest2 hpat
                      exact absurd (List.head_eq_of_cons_eq hpat) h2
                    · rename_i c2 rest2 hpat
                      injection hpat with hc hr
                      subst hc
                      rw [if_neg h8, ← hr]
                      exact mapCons_parse _ _ _ _ (ih rest)

theorem parseValue_quoteStr (f : Nat) (s : String) (rest : List Char) :
    parseValue (f + 1) (quoteStr s ++ rest) = some (Json.str s, rest) := by
  show Option.map (fun p => (Json.str (String.mk p.1), p.2))
      (parseStrBody ((escapeChars s.data ++ ['"']) ++ rest)) = some (Json.str s, rest)
  rw [List.append_assoc, List.singleton_append, parseStrBody_escapeChars]
  rfl

theorem parseValue_ws_quoteStr (f : Nat) (s : String) (rest : List Char) :
    parseValue (f + 1) (' ' :: (quoteStr s ++ rest)) = some (Json.str s, rest) :=
  parseValue_quoteStr f s rest

theorem parseValue_msg (k : Nat) (m : Message) (tail : List Char) :
    parseValue (k + 4) (stringifyMsgChars m ++ tail) = some (msgJson m, tail) := by
  unfold stringifyMsgChars
  rw [List.append_assoc, List.append_assoc, List.append_assoc, List.append_assoc]
  show (match parseValue (k + 2) (' ' :: (quoteStr (roleString m.role) ++
      (",\n    \"content\": ".data ++ (quoteStr m.content ++ ("\n  \x7d".data ++ tail))))) with
    | none => none
    | some (v, r4) =>
      match skipWs r4 with
      | ',' :: r5 =>
        match parseMembers (k + 2) r5 with
        | some (Json.obj l, r6) => some (Json.obj (("role", v) :: l), r6)
        | _ => none
      | '}' :: r5 => some (Json.obj [("role", v)], r5)
      | _ => none) = some (msgJson m, tail)
  rw [parseValue_ws_quoteStr]
  show (match (match parseValue (k + 1) (' ' :: (quoteStr m.content ++
        ("\n  \x7d".data ++ tail))) with
      | none => none
      | some (v, r4) =>
        match skipWs r4 with
        | ',' :: r5 =>
          match parseMembers (k + 1) r5 with
          | some (Json.obj l, r6) => some (Json.obj (("content", v) :: l), r6)
          | _ => none
        | '}' :: r5 => some (Json.obj [("content", v)], r5)
        | _ => none) with
    | some (Json.obj l, r6) =>
      some (Json.obj (("role", Json.str (roleString m.role)) :: l), r6)
    | _ => none) = some (msgJson m, tail)
  rw [parseValue_ws_quoteStr]
  rfl

theorem parseElems_msgs : ∀ (ms : List Message) (k : Nat) (rest : List Char),
    ms ≠ [] → ms.length + 4 ≤ k →
    parseElems k (elemsChars ms ++ '\n' :: ']' :: rest) =
        some (Json.arr (ms.map msgJson), rest)
      ∧ parseElems k ('\n' :: ' ' :: ' ' :: (elemsChars ms ++ '\n' :: ']' :: rest)) =
        some (Json.arr (ms.map msgJson), rest) := by
  intro ms
  induction ms with
  | nil =>
    intro k rest hne _
    exact absurd rfl hne
  | cons m t ih =>
    intro k rest _ hk
    rw [List.length_cons] at hk
    obtain ⟨j, rfl⟩ : ∃ j, k = j + 5 := ⟨k - 5, by omega⟩
    cases t with
    | nil =>
      have h1 : parseElems (j + 5) (elemsChars [m] ++ '\n' :: ']' :: rest) =
          some (Json.arr ([m].map msgJson), rest) := by
        show (match parseValue (j + 4) (stringifyMsgChars m ++ '\n' :: ']' :: rest) with
          | none => none
          | some (v, r) =>
            match skipWs r with
            | ',' :: r2 =>
              match parseElems (j + 4) r2 with
              | some (Json.arr l, r3) => some (Json.arr (v :: l), r3)
              | _ => none
            | ']' :: r2 => some (Json.arr [v], r2)
            | _ => none) = some (Json.arr ([m].map msgJson), rest)
        rw [parseValue_msg j m]
        rfl
      exact ⟨h1, h1⟩
    | cons m2 t2 =>
      have h1 : parseElems (j + 5) (elemsChars (m :: m2 :: t2) ++ '\n' :: ']' :: rest) =
          some (Json.arr ((m :: m2 :: t2).map msgJson), rest) := by
        show parseElems (j + 5) ((stringifyMsgChars m ++ ",\n  ".data ++
          elemsChars (m2 :: t2)) ++ '\n' :: ']' :: rest) =
            some (Json.arr ((m :: m2 :: t2).map msgJson), rest)
        rw [List.append_assoc, List.append_assoc]
        show (match parseValue (j + 4) (stringifyMsgChars m ++ (",\n  ".data ++
            (elemsChars (m2 :: t2) ++ '\n' :: ']' :: rest))) with
          | none => none
          | some (v, r) =>
            match skipWs r with
            | ',' :: r2 =>
              match parseElems (j + 4) r2 with
              | some (Json.arr l, r3) => some (Json.arr (v :: l), r3)
              | _ => none
            | ']' :: r2 => some (Json.arr [v], r2)
            | _ => none) = some (Json.arr ((m :: m2 :: t2).map msgJson), rest)
        rw [parseValue_msg j m]
        show (match parseElems (j + 4)
            ('\n' :: ' ' :: ' ' :: (elemsChars (m2 :: t2) ++ '\n' :: ']' :: rest)) with
          | some (Json.arr l, r3) => some (Json.arr (msgJson m :: l), r3)
          | _ => none) = some (Json.arr ((m :: m2 :: t2).map msgJson), rest)
        have hrec := (ih (j + 4) rest (by simp) (by simp only [List.length_cons] at hk ⊢; omega)).2
        rw [hrec]
        rfl
      exact ⟨h1, h1⟩

theorem stringifyMsgChars_length_ge (m : Message) : 1 ≤ (stringifyMsgChars m).length := by
  unfold stringifyMsgChars
  simp [List.length_append]

theorem elemsChars_length_ge : ∀ ms : List Message, ms.length ≤ (elemsChars ms).length := by
  intro ms
  induction ms with
  | nil => simp [elemsChars]
  | cons m t ih =>
    cases t with
    | nil =>
      simpa [elemsChars] using stringifyMsgChars_length_ge m
    | cons m2 t2 =>
      have hm := stringifyMsgChars_length_ge m
      rw [elemsChars]
      simp only [List.length_append, List.length_cons]
      simp only [List.length_cons] at ih ⊢
      omega

theorem parseJson_stringifyMessages (h : List Message) :
    parseJsonChars (stringifyMessages h).data = some (Json.arr (h.map msgJson)) := by
  cases h with
  | nil => rfl
  | cons m t =>
    have hlen : (m :: t).length + 4 ≤ (stringifyMessages (m :: t)).data.length + 2 := by
      show (m :: t).length + 4 ≤ ("[\n  ".data ++ elemsChars (m :: t) ++ "\n]".data).length + 2
      have he := elemsChars_length_ge (m :: t)
      simp only [List.length_append, List.length_cons, List.length_nil] at he ⊢
      omega
    have main := (parseElems_msgs (m :: t) ((stringifyMessages (m :: t)).data.length + 2) []
      (by simp) hlen).1
    cases t with
    | nil =>
      show (match parseElems ((stringifyMessages [m]).data.length + 2)
          (elemsChars [m] ++ '\n' :: ']' :: []) with
        | some (v, rest) => if skipWs rest == [] then some v else none
        | none => none) = some (Json.arr ([m].map msgJson))
      rw [main]
      rfl
    | cons m2 t2 =>
      show (match parseElems ((stringifyMessages (m :: m2 :: t2)).data.length + 2)
          (elemsChars (m :: m2 :: t2) ++ '\n' :: ']' :: []) with
        | some (v, rest) => if skipWs rest == [] then some v else none
        | none => none) = some (Json.arr ((m :: m2 :: t2).map msgJson))
      rw [main]
      rfl

theorem msgOfJson_msgJson (m : Message) : msgOfJson (msgJson m) = some m := by
  obtain ⟨r, c⟩ := m
  cases r <;> rfl

theorem decodeMessages_map (h : List Message) :
    decodeMessages (Json.arr (h.map msgJson)) = some h := by
  induction h with
  | nil => rfl
  | cons m t ih =>
    show decodeMsgList ((m :: t).map msgJson) = some (m :: t)
    rw [List.map_cons, decodeMsgList, msgOfJson_msgJson]
    show Option.map (fun l => m :: l) (decodeMessages (Json.arr (t.map msgJson))) =
      some (m :: t)
    rw [ih]
    rfl

/-- C6: history persistence round-trips.  Saving writes
`JSON.stringify(history, null, 2)`; loading parses it back, and the parsed
value is exactly the turn sequence that was saved — same roles, same
contents, same order — so an immediate reload reproduces the history. -/
theorem history_roundtrip (h : List Message) :
    loadHistory (some (stringifyMessages h)) = Json.arr (h.map msgJson)
    ∧ decodeMessages (Json.arr (h.map msgJson)) = some h := by
  constructor
  · show (match parseJsonChars (stringifyMessages h).data with
      | some j => j
      | none => Json.arr []) = Json.arr (h.map msgJson)
    rw [parseJson_stringifyMessages]
  · exact decodeMessages_map h
